import Mathlib

/-!
Verification of the incremental reply delivery pipeline of
`src/telegram/bot-message-dispatch.ts` (openclaw).

Text is modelled as `List Char` (JS strings).  Collaborators that live
outside the provided sources (the `EmbeddedBlockChunker`, the draft
stream created by `createTelegramDraftStream`, the buffered-block reply
dispatcher and the history-pruning helper) are modelled from the spec;
their definitions say so in their doc comments.  Everything else is a
direct shallow embedding of `bot-message-dispatch.ts`.
-/

namespace OpenClaw

/-- Text as a list of characters (JS strings). -/
abbrev Text := List Char

/-- Concatenation of a list of texts. -/
def joinTexts : List Text → Text
  | [] => []
  | t :: ts => t ++ joinTexts ts

theorem joinTexts_append (a b : List Text) :
    joinTexts (a ++ b) = joinTexts a ++ joinTexts b := by
  induction a with
  | nil => simp [joinTexts]
  | cons t ts ih => simp [joinTexts, ih]

/-- Modelled from the spec: the boundary policy of the Chunk Splitter
("boundary detection is purely a function of the buffered text's
structure").  `cut buf` returns the length of the safe-to-emit prefix of
the buffer; `0` means no safe boundary is available. -/
abbrev BoundaryPolicy := Text → Nat

/-- Modelled from the spec: the Chunk Splitter (`EmbeddedBlockChunker`,
whose source is not under `src/`).  It holds a remainder buffer and a
boundary policy. -/
structure Chunker where
  cut : BoundaryPolicy
  buffer : Text

/-- Modelled from the spec: `append(delta)` buffers a delta. -/
def Chunker.append (c : Chunker) (delta : Text) : Chunker :=
  { c with buffer := c.buffer ++ delta }

/-- Modelled from the spec: `reset()` discards all buffered state without
emitting. -/
def Chunker.reset (c : Chunker) : Chunker :=
  { c with buffer := [] }

/-- Modelled from the spec: `hasBuffered()` reports whether unflushed text
remains. -/
def Chunker.hasBuffered (c : Chunker) : Bool :=
  !c.buffer.isEmpty

/-- Modelled from the spec: the non-forced drain loop.  Repeatedly emit
the safe prefix designated by the boundary policy until no safe boundary
remains.  Fuel-indexed structural recursion; `buf.length` fuel is always
enough because every emitted chunk is non-empty. -/
def drainChunksFuel (cut : BoundaryPolicy) : Nat → Text → List Text × Text
  | 0, buf => ([], buf)
  | n + 1, buf =>
    let k := cut buf
    if 0 < k then
      let rest := drainChunksFuel cut n (buf.drop k)
      (buf.take k :: rest.1, rest.2)
    else ([], buf)

/-- Modelled from the spec: `drain(force)` returns zero or more chunks and
retains any unemitted remainder; a forced drain emits all remaining
buffered text as a final chunk regardless of boundary safety, then clears
the buffer. -/
def Chunker.drain (c : Chunker) (force : Bool) : List Text × Chunker :=
  if force then
    (if c.buffer.isEmpty then [] else [c.buffer], { c with buffer := [] })
  else
    let r := drainChunksFuel c.cut c.buffer.length c.buffer
    (r.1, { c with buffer := r.2 })

/-- Draining never loses nor duplicates characters: the emitted chunks
followed by the retained remainder are exactly the buffer. -/
theorem drainChunksFuel_conservation (cut : BoundaryPolicy) :
    ∀ (n : Nat) (buf : Text),
      joinTexts (drainChunksFuel cut n buf).1 ++ (drainChunksFuel cut n buf).2 = buf := by
  intro n
  induction n with
  | zero => intro buf; simp [drainChunksFuel, joinTexts]
  | succ n ih =>
    intro buf
    by_cases h : 0 < cut buf
    · simp only [drainChunksFuel, h, if_pos, joinTexts]
      rw [List.append_assoc, ih]
      exact List.take_append_drop _ _
    · simp [drainChunksFuel, h, joinTexts]

/-- Conservation for a single drain call, forced or not. -/
theorem Chunker.drain_conservation (c : Chunker) (force : Bool) :
    joinTexts (c.drain force).1 ++ (c.drain force).2.buffer = c.buffer := by
  cases force with
  | true =>
    cases hb : c.buffer with
    | nil => simp [Chunker.drain, hb, joinTexts]
    | cons a t => simp [Chunker.drain, hb, joinTexts]
  | false =>
    simp only [Chunker.drain, if_neg Bool.false_ne_true]
    exact drainChunksFuel_conservation c.cut c.buffer.length c.buffer

/-- One turn's interaction with the Chunk Splitter: appends interleaved
with non-forced drains. -/
inductive ChunkOp where
  | app (delta : Text)
  | drainNF

/-- Run a sequence of chunker operations, collecting the chunks emitted by
the non-forced drains. -/
def runChunkOps : Chunker → List ChunkOp → Chunker × List Text
  | c, [] => (c, [])
  | c, ChunkOp.app d :: rest => runChunkOps (c.append d) rest
  | c, ChunkOp.drainNF :: rest =>
    let r := c.drain false
    let res := runChunkOps r.2 rest
    (res.1, r.1 ++ res.2)

/-- Concatenation of all deltas appended by a sequence of operations. -/
def opsText : List ChunkOp → Text
  | [] => []
  | ChunkOp.app d :: rest => d ++ opsText rest
  | ChunkOp.drainNF :: rest => opsText rest

/-- Invariant: chunks emitted so far plus the retained buffer are exactly
the initial buffer plus everything appended. -/
theorem runChunkOps_conservation :
    ∀ (ops : List ChunkOp) (c : Chunker),
      joinTexts (runChunkOps c ops).2 ++ (runChunkOps c ops).1.buffer
        = c.buffer ++ opsText ops := by
  intro ops
  induction ops with
  | nil => intro c; simp [runChunkOps, opsText, joinTexts]
  | cons op rest ih =>
    intro c
    cases op with
    | app d =>
      simp only [runChunkOps, opsText]
      rw [ih (c.append d)]
      simp [Chunker.append, List.append_assoc]
    | drainNF =>
      simp only [runChunkOps, opsText]
      rw [joinTexts_append, List.append_assoc, ih ((c.drain false).2)]
      rw [← List.append_assoc, Chunker.drain_conservation c false]

/-- C1: for every sequence of deltas appended to the Chunk Splitter during
one turn (with any interleaving of non-forced drains), the concatenation
of all chunks emitted by the non-forced drains plus the remainder emitted
by the final forced drain equals the concatenation of all input deltas —
no character is dropped and none is duplicated. -/
theorem chunker_drain_conservation (cut : BoundaryPolicy) (ops : List ChunkOp) :
    joinTexts (runChunkOps (Chunker.mk cut []) ops).2
      ++ joinTexts ((runChunkOps (Chunker.mk cut []) ops).1.drain true).1
      = opsText ops := by
  have hfin :
      joinTexts ((runChunkOps (Chunker.mk cut []) ops).1.drain true).1
        = (runChunkOps (Chunker.mk cut []) ops).1.buffer := by
    cases hb : (runChunkOps (Chunker.mk cut []) ops).1.buffer with
    | nil => simp [Chunker.drain, hb, joinTexts]
    | cons a t => simp [Chunker.drain, hb, joinTexts]
  rw [hfin]
  have h := runChunkOps_conservation ops (Chunker.mk cut [])
  simpa using h

/-- One deliverable unit produced by the dispatcher, with identifying info
(`pid`) and content. -/
structure Payload where
  pid : Nat
  text : Text
deriving DecidableEq

/-- Observable transport / sink calls made while processing one turn. -/
inductive Action where
  | editDraft (t : Text)
  | warnLog (t : Text)
  | finalizeDraft
  | forceDrain
  | sendFinal (p : Payload)
  | errorSink (p : Payload)
  | typingStarted
  | typingWarn
  | removeAck
  | pruneHistory
deriving DecidableEq

def Action.isSend : Action → Bool
  | Action.sendFinal _ => true
  | _ => false

def Action.isErr : Action → Bool
  | Action.errorSink _ => true
  | _ => false

def Action.isDraftAct : Action → Bool
  | Action.editDraft _ => true
  | Action.warnLog _ => true
  | Action.finalizeDraft => true
  | Action.forceDrain => true
  | _ => false

/-- Failure environment: outcomes of the fallible transport operations.
`editOk` decides whether a live-edit attempt succeeds, `sendOk` whether a
payload's durable send succeeds, `typingOk` whether the typing indicator
start succeeds. -/
structure Env where
  editOk : Text → Bool
  sendOk : Payload → Bool
  typingOk : Bool

/-- Modelled from the spec: the Draft Controller created by
`createTelegramDraftStream` (`draft-stream.ts`, not under `src/`).  It
coalesces rapid `update` calls into a single pending edit, `flush`
performs the most recent pending edit, and `stop` finalizes the live
message and terminates future edits. -/
structure DraftStream where
  maxChars : Nat
  lastSent : Text
  pending : Option Text
  stopped : Bool

/-- Modelled from the spec: `update(text)` schedules a live-edit,
coalescing rapid successive calls (later calls supersede earlier queued
ones); after `stop()` future edits are ignored. -/
def DraftStream.update (d : DraftStream) (t : Text) : DraftStream :=
  if d.stopped then d else { d with pending := some t }

/-- Modelled from the spec: `flush()` waits for the pending edit and
guarantees the transport reflects the most recent `update`; a failed edit
attempt is reported through the injected warn sink and does not raise. -/
def DraftStream.flush (d : DraftStream) (okf : Text → Bool) :
    DraftStream × List Action :=
  match d.pending with
  | none => (d, [])
  | some t =>
    if d.stopped then ({ d with pending := none }, [])
    else if t = d.lastSent then ({ d with pending := none }, [])
    else if okf t then
      ({ d with pending := none, lastSent := t }, [Action.editDraft t])
    else
      ({ d with pending := none }, [Action.editDraft t, Action.warnLog t])

/-- Modelled from the spec: `stop()` is idempotent, terminates future
edits, and finalizes the live message on its first call only. -/
def DraftStream.stop (d : DraftStream) : DraftStream × List Action :=
  if d.stopped then (d, [])
  else ({ d with stopped := true, pending := none }, [Action.finalizeDraft])

/-- Streaming mode of the dispatcher (`streamMode` in the source:
`"off" | "partial" | "block"`). -/
inductive StreamMode where
  | off
  | partialMode
  | block
deriving DecidableEq

/-- Configuration and context consumed by `dispatchTelegramMessage`.
`resolvedThreadId.isSome` models `typeof resolvedThreadId === "number"`,
`hasHistoryKey` models truthiness of `historyKey`, `chunking` models the
result of `resolveTelegramDraftStreamingChunking`. -/
structure DispatchCfg where
  streamMode : StreamMode
  isPrivateChat : Bool
  resolvedThreadId : Option Int
  botTopicsEnabled : Bool
  textLimit : Nat
  chunking : Option BoundaryPolicy
  isGroup : Bool
  hasHistoryKey : Bool
  historyLimit : Option Nat

/-- Source: `const draftMaxChars = Math.min(textLimit, 4096);`. -/
def draftMaxChars (textLimit : Nat) : Nat :=
  min textLimit 4096

/-- Source: `const canStreamDraft = streamMode !== "off" && isPrivateChat &&
typeof resolvedThreadId === "number" && (await resolveBotTopicsEnabled(primaryCtx));`. -/
def canStreamDraft (cfg : DispatchCfg) : Bool :=
  decide (cfg.streamMode ≠ StreamMode.off) && cfg.isPrivateChat &&
    cfg.resolvedThreadId.isSome && cfg.botTopicsEnabled

/-- Source: `const draftStream = canStreamDraft ? createTelegramDraftStream({...
maxChars: draftMaxChars, ...}) : undefined;`. -/
def mkDraftStream (cfg : DispatchCfg) : Option DraftStream :=
  if canStreamDraft cfg then
    some { maxChars := draftMaxChars cfg.textLimit, lastSent := [],
           pending := none, stopped := false }
  else none

/-- Source: `draftChunking = draftStream && streamMode === "block" ? resolve… :
undefined; draftChunker = draftChunking ? new EmbeddedBlockChunker(draftChunking)
: undefined;`. -/
def mkChunker (cfg : DispatchCfg) : Option Chunker :=
  if canStreamDraft cfg && decide (cfg.streamMode = StreamMode.block) then
    cfg.chunking.map (fun p => Chunker.mk p [])
  else none

/-- JS `t.startsWith(pre)`: does `t` begin with `pre`? -/
def startsWithText : Text → Text → Bool
  | _, [] => true
  | [], _ :: _ => false
  | a :: as, b :: bs => if a = b then startsWithText as bs else false

theorem startsWithText_drop :
    ∀ (pre t : Text), startsWithText t pre = true →
      pre ++ t.drop pre.length = t := by
  intro pre
  induction pre with
  | nil => intro t _; simp
  | cons b bs ih =>
    intro t h
    cases t with
    | nil => simp [startsWithText] at h
    | cons a as =>
      simp only [startsWithText] at h
      split at h
      · rename_i heq
        simp only [List.cons_append, List.length_cons, List.drop_succ_cons]
        rw [heq, ih as h]
      · exact absurd h (by simp)

/-- Mutable per-turn state of the dispatch closures: `lastPartialText`,
`draftText`, the chunker, the draft stream, and the log of transport/sink
calls made so far. -/
structure DispatchState where
  lastPartialText : Text
  draftText : Text
  chunker : Option Chunker
  draft : Option DraftStream
  actions : List Action

/-- Shallow embedding of `updateDraftFromPartial` from
`bot-message-dispatch.ts`: early-outs on no draft stream / empty text /
unchanged text; direct `update` in `"partial"` mode; otherwise the
incremental path computes the delta, resets chunker and accumulated draft
text on a non-extending partial text, and feeds the delta through the
chunker, emitting drained chunks into the draft text with an `update` per
chunk. -/
def updateDraftFromPartial (mode : StreamMode) (s : DispatchState) (text : Text) :
    DispatchState :=
  match s.draft with
  | none => s
  | some d =>
    if text = [] then s
    else if text = s.lastPartialText then s
    else if mode = StreamMode.partialMode then
      { s with lastPartialText := text, draft := some (d.update text) }
    else
      let ext := startsWithText text s.lastPartialText
      let delta := if ext then text.drop s.lastPartialText.length else text
      let s1 :=
        if ext then s
        else { s with chunker := s.chunker.map Chunker.reset, draftText := [] }
      let s2 := { s1 with lastPartialText := text }
      if delta = [] then s2
      else
        match s2.chunker with
        | none => { s2 with draftText := text, draft := some (d.update text) }
        | some ck =>
          let ck1 := ck.append delta
          let r := ck1.drain false
          let fin := r.1.foldl
            (fun (acc : Text × DraftStream) ch =>
              (acc.1 ++ ch, acc.2.update (acc.1 ++ ch)))
            (s2.draftText, d)
          { s2 with chunker := some r.2, draftText := fin.1, draft := some fin.2 }

/-- Shallow embedding of `flushDraft` from `bot-message-dispatch.ts`: if
the chunker has buffered text, force-drain it into `draftText`, reset the
chunker, `update` the draft if the text is non-empty; then await the draft
stream's `flush`. -/
def flushDraft (env : Env) (s : DispatchState) : DispatchState :=
  match s.draft with
  | none => s
  | some d =>
    let s1 :=
      match s.chunker with
      | some ck =>
        if ck.hasBuffered then
          let r := ck.drain true
          let dt := s.draftText ++ joinTexts r.1
          let d1 := if dt = [] then d else d.update dt
          { s with chunker := some (r.2.reset), draftText := dt,
                   draft := some d1,
                   actions := s.actions ++ [Action.forceDrain] }
        else s
      | none => s
    match s1.draft with
    | none => s1
    | some d1 =>
      let r := d1.flush env.editOk
      { s1 with draft := some r.1, actions := s1.actions ++ r.2 }

/-- Embedding of `draftStream?.stop()` at the dispatch level. -/
def stopDraft (s : DispatchState) : DispatchState :=
  match s.draft with
  | none => s
  | some d =>
    let r := d.stop
    { s with draft := some r.1, actions := s.actions ++ r.2 }

/-- Kind tag passed to the delivery callback. -/
inductive InfoKind where
  | finalKind
  | otherKind
deriving DecidableEq

/-- Shallow embedding of the `deliver` callback in `dispatcherOptions`:
on a final payload, first `flushDraft` then `stop` the draft stream, then
perform the durable send (`deliverReplies`); the boolean reports whether
the send succeeded. -/
def deliverCb (env : Env) (s : DispatchState) (p : Payload) (k : InfoKind) :
    DispatchState × Bool :=
  let s1 := if k = InfoKind.finalKind then stopDraft (flushDraft env s) else s
  ({ s1 with actions := s1.actions ++ [Action.sendFinal p] }, env.sendOk p)

/-- Non-terminal events of a reply-generation stream. -/
inductive TurnEvent where
  | partialText (t : Text)
  | reasoningText (t : Text)

/-- Terminal event: success with final payloads, or no reply. -/
inductive Terminal where
  | finalEv (ps : List Payload)
  | noneEv

/-- One turn's reply-generation stream: ordered non-terminal events
followed by exactly one terminal event. -/
structure TurnStream where
  events : List TurnEvent
  terminal : Terminal

/-- Handler installation from `replyOptions`: `onPartialReply` runs
`updateDraftFromPartial`, `onReasoningStream` updates the draft stream
directly when the text is non-empty; both are no-ops when no draft stream
exists (the source leaves the handlers `undefined`). -/
def handleEvent (mode : StreamMode) (s : DispatchState) : TurnEvent → DispatchState
  | TurnEvent.partialText t => updateDraftFromPartial mode s t
  | TurnEvent.reasoningText t =>
    match s.draft with
    | none => s
    | some d => if t = [] then s else { s with draft := some (d.update t) }

/-- Modelled from the spec: `createTypingCallbacks` (not under `src/`) —
starts a typing indicator when dispatch begins, best-effort; a failure is
reported through `onStartError` and is never fatal. -/
def typingStart (env : Env) (s : DispatchState) : DispatchState :=
  if env.typingOk then { s with actions := s.actions ++ [Action.typingStarted] }
  else { s with actions := s.actions ++ [Action.typingWarn] }

/-- Modelled from the spec: the terminal-event handling of the buffered
block dispatcher (`dispatchReplyWithBufferedBlockDispatcher`, not under
`src/`): a terminal no-reply event skips delivery and reports
`queuedFinal: false`; a terminal final event invokes the delivery callback
once per payload, sequentially and in order, reporting a failed delivery
to the `onError` sink with the payload's info and continuing with the
siblings, then reports `queuedFinal: true`.  `deliverStep` is the
per-payload step: invoke the delivery callback, and on failure report to
the error sink. -/
def deliverStep (env : Env) (st : DispatchState) (p : Payload) : DispatchState :=
  let r := deliverCb env st p InfoKind.finalKind
  if r.2 then r.1
  else { r.1 with actions := r.1.actions ++ [Action.errorSink p] }

/-- Modelled from the spec: terminal-event handling of the buffered block
dispatcher — no-reply skips delivery and reports `false`; a final event
folds `deliverStep` over the payloads in order and reports `true`. -/
def runTerminal (env : Env) (s : DispatchState) : Terminal → DispatchState × Bool
  | Terminal.noneEv => (s, false)
  | Terminal.finalEv ps => (ps.foldl (deliverStep env) s, true)

/-- Modelled from the spec: the buffered block dispatcher run — start the
typing indicator, process the non-terminal events through the installed
handlers, then handle the terminal event. -/
def runDispatcher (env : Env) (mode : StreamMode) (stream : TurnStream)
    (s0 : DispatchState) : DispatchState × Bool :=
  let s1 := typingStart env s0
  let s2 := stream.events.foldl (handleEvent mode) s1
  runTerminal env s2 stream.terminal

/-- Modelled from the spec: `clearHistoryEntriesIfEnabled` (not under
`src/`) — prunes the buffered conversation-history entries when a
configured history limit is present and exceeded. -/
def clearHistoryEntriesIfEnabled (entries : List Text) (limit : Option Nat) :
    List Text :=
  match limit with
  | none => entries
  | some l => if l < entries.length then [] else entries

/-- Outcome of one full dispatch: final per-turn state, the `queuedFinal`
signal, and the group history entries after the turn. -/
structure RunResult where
  state : DispatchState
  queuedFinal : Bool
  history : List Text

/-- Initial per-turn state built by `dispatchTelegramMessage`. -/
def initialState (cfg : DispatchCfg) : DispatchState :=
  { lastPartialText := [], draftText := [], chunker := mkChunker cfg,
    draft := mkDraftStream cfg, actions := [] }

/-- Shallow embedding of `dispatchTelegramMessage` from
`bot-message-dispatch.ts`: run the dispatcher, unconditionally `stop` the
draft stream, then — following the source — prune group history in the
no-reply branch and, after a successful final delivery, remove the ack
reaction and prune group history again. -/
def dispatchTelegramMessage (env : Env) (cfg : DispatchCfg)
    (stream : TurnStream) (hist : List Text) : RunResult :=
  let r := runDispatcher env cfg.streamMode stream (initialState cfg)
  let s := stopDraft r.1
  if r.2 then
    let s1 := { s with actions := s.actions ++ [Action.removeAck] }
    if cfg.isGroup && cfg.hasHistoryKey then
      { state := { s1 with actions := s1.actions ++ [Action.pruneHistory] },
        queuedFinal := true,
        history := clearHistoryEntriesIfEnabled hist cfg.historyLimit }
    else { state := s1, queuedFinal := true, history := hist }
  else
    if cfg.isGroup && cfg.hasHistoryKey then
      { state := { s with actions := s.actions ++ [Action.pruneHistory] },
        queuedFinal := false,
        history := clearHistoryEntriesIfEnabled hist cfg.historyLimit }
    else { state := s, queuedFinal := false, history := hist }

/-! ### Basic facts about the Draft Controller -/

theorem DraftStream.stop_stopped (d : DraftStream) : d.stop.1.stopped = true := by
  unfold DraftStream.stop
  cases h : d.stopped with
  | true => simp [h]
  | false => simp [h]

theorem DraftStream.stop_of_stopped (d : DraftStream) (h : d.stopped = true) :
    d.stop = (d, []) := by
  simp [DraftStream.stop, h]

theorem DraftStream.flush_of_stopped (d : DraftStream) (okf : Text → Bool)
    (h : d.stopped = true) : (d.flush okf).2 = [] := by
  unfold DraftStream.flush
  cases hp : d.pending with
  | none => simp
  | some t => simp [h]

theorem DraftStream.flush_stopped_eq (d : DraftStream) (okf : Text → Bool) :
    (d.flush okf).1.stopped = d.stopped := by
  unfold DraftStream.flush
  cases hp : d.pending with
  | none => simp
  | some t =>
    by_cases h1 : d.stopped = true
    · simp [h1]
    · by_cases h2 : t = d.lastSent
      · simp [h1, h2]
      · by_cases h3 : okf t = true
        · simp [h1, h2, h3]
        · simp [h1, h2, h3]

theorem DraftStream.flush_pending_none (d : DraftStream) (okf : Text → Bool) :
    (d.flush okf).1.pending = none := by
  unfold DraftStream.flush
  cases hp : d.pending with
  | none => simpa using hp
  | some t =>
    by_cases h1 : d.stopped = true
    · simp [h1]
    · by_cases h2 : t = d.lastSent
      · simp [h1, h2]
      · by_cases h3 : okf t = true
        · simp [h1, h2, h3]
        · simp [h1, h2, h3]

theorem DraftStream.stop_pending (d : DraftStream) (h : d.pending = none) :
    d.stop.1.pending = none := by
  unfold DraftStream.stop
  cases hs : d.stopped with
  | true => simpa using h
  | false => simp

/-- Shapes of the transport calls one `flush` can make. -/
theorem DraftStream.flush_acts_shape (d : DraftStream) (okf : Text → Bool) :
    (d.flush okf).2 = [] ∨ (∃ t, (d.flush okf).2 = [Action.editDraft t]) ∨
      (∃ t, (d.flush okf).2 = [Action.editDraft t, Action.warnLog t]) := by
  unfold DraftStream.flush
  cases hp : d.pending with
  | none => left; simp
  | some t =>
    by_cases h1 : d.stopped = true
    · left; simp [h1]
    · by_cases h2 : t = d.lastSent
      · left; simp [h1, h2]
      · by_cases h3 : okf t = true
        · right; left; exact ⟨t, by simp [h1, h2, h3]⟩
        · right; right; exact ⟨t, by simp [h1, h2, h3]⟩

/-- Shapes of the transport calls one `stop` can make. -/
theorem DraftStream.stop_acts_shape (d : DraftStream) :
    d.stop.2 = [] ∨ d.stop.2 = [Action.finalizeDraft] := by
  unfold DraftStream.stop
  cases h : d.stopped with
  | true => left; simp
  | false => right; simp

theorem DraftStream.flush_acts_draft (d : DraftStream) (okf : Text → Bool) :
    ∀ a ∈ (d.flush okf).2, a.isDraftAct = true := by
  intro a ha
  rcases d.flush_acts_shape okf with h | ⟨t, h⟩ | ⟨t, h⟩
  · rw [h] at ha; simp at ha
  · rw [h] at ha; simp at ha; subst ha; simp [Action.isDraftAct]
  · rw [h] at ha; simp at ha
    rcases ha with rfl | rfl <;> simp [Action.isDraftAct]

theorem DraftStream.stop_acts_draft (d : DraftStream) :
    ∀ a ∈ d.stop.2, a.isDraftAct = true := by
  rcases d.stop_acts_shape with h | h <;>
    · rw [h]; intro a ha; simp at ha <;> simp_all [Action.isDraftAct]

theorem Action.draft_not_send_err (a : Action) (h : a.isDraftAct = true) :
    a.isSend = false ∧ a.isErr = false := by
  cases a <;> simp_all [Action.isDraftAct, Action.isSend, Action.isErr]

/-- C6: Draft Controller `stop()` is idempotent: a second `stop()` right
after a `stop()`, or after a `flush()` followed by `stop()`, performs no
transport calls; a `flush` after `stop` performs no transport calls
either; all these operations are total functions, so no error is raised;
and at the dispatch level the unconditional terminating `stopDraft` after
a path that already stopped the draft appends no further actions. -/
theorem draftStream_stop_idempotent (d : DraftStream) (okf : Text → Bool) :
    (d.stop.1).stop = (d.stop.1, []) ∧
    ((d.stop.1).flush okf).2 = [] ∧
    (((d.flush okf).1.stop).1).stop = (((d.flush okf).1.stop).1, []) ∧
    (∀ s : DispatchState, (stopDraft (stopDraft s)).actions = (stopDraft s).actions) := by
  refine ⟨DraftStream.stop_of_stopped _ (d.stop_stopped),
          DraftStream.flush_of_stopped _ okf (d.stop_stopped),
          DraftStream.stop_of_stopped _ ((d.flush okf).1.stop_stopped), ?_⟩
  intro s
  cases hd : s.draft with
  | none => simp [stopDraft, hd]
  | some d0 =>
    simp only [stopDraft, hd]
    rw [DraftStream.stop_of_stopped _ (d0.stop_stopped)]
    simp

/-! ### Gating and cap of the draft stream (source-level) -/

theorem mkDraftStream_isSome (cfg : DispatchCfg) :
    (mkDraftStream cfg).isSome = canStreamDraft cfg := by
  unfold mkDraftStream
  split <;> simp_all

/-- C10: the draft live message's character cap is the minimum of the
configured text limit and 4096; in particular the cap never exceeds 4096
even when the channel text limit is larger. -/
theorem draft_max_chars_cap (cfg : DispatchCfg) (d : DraftStream)
    (h : mkDraftStream cfg = some d) :
    d.maxChars = min cfg.textLimit 4096 ∧ d.maxChars ≤ 4096 := by
  unfold mkDraftStream at h
  split at h
  · injection h with h'
    subst h'
    exact ⟨rfl, Nat.min_le_right _ _⟩
  · exact Option.noConfusion h

/-- Concrete configuration with a channel text limit above 4096, enabling
the draft stream. -/
def cfgW10 : DispatchCfg :=
  { streamMode := StreamMode.block, isPrivateChat := true,
    resolvedThreadId := some 7, botTopicsEnabled := true, textLimit := 5000,
    chunking := none, isGroup := false, hasHistoryKey := false,
    historyLimit := none }

/-- Concrete draft stream produced by `mkDraftStream cfgW10`. -/
def draftW10 : DraftStream :=
  { maxChars := 4096, lastSent := [], pending := none, stopped := false }

theorem draft_max_chars_cap_witness :
    draftW10.maxChars = min 5000 4096 ∧ draftW10.maxChars ≤ 4096 :=
  draft_max_chars_cap cfgW10 draftW10 (by rfl)

/-! ### Action-ledger bookkeeping -/

theorem updateDraft_actions (mode : StreamMode) (s : DispatchState) (t : Text) :
    (updateDraftFromPartial mode s t).actions = s.actions := by
  unfold updateDraftFromPartial
  cases hd : s.draft with
  | none => rfl
  | some d =>
    by_cases h1 : t = []
    · simp [h1]
    · by_cases h2 : t = s.lastPartialText
      · simp [h1, h2]
      · by_cases h3 : mode = StreamMode.partialMode
        · simp [h1, h2, h3]
        · simp only [h1, h2, h3, if_neg, if_false]
          by_cases hext : startsWithText t s.lastPartialText = true
          · simp only [hext, if_pos, if_true]
            split
            · rfl
            · split <;> rfl
          · simp only [Bool.not_eq_true] at hext
            simp only [hext, Bool.false_eq_true, if_false]
            split
            · rfl
            · split <;> rfl

theorem handleEvent_actions (mode : StreamMode) (s : DispatchState) (e : TurnEvent) :
    (handleEvent mode s e).actions = s.actions := by
  cases e with
  | partialText t => exact updateDraft_actions mode s t
  | reasoningText t =>
    simp only [handleEvent]
    cases s.draft with
    | none => rfl
    | some d =>
      by_cases h : t = []
      · simp [h]
      · simp [h]

theorem foldlEvents_actions (mode : StreamMode) (evs : List TurnEvent) :
    ∀ s : DispatchState, (evs.foldl (handleEvent mode) s).actions = s.actions := by
  induction evs with
  | nil => intro s; rfl
  | cons e rest ih =>
    intro s
    rw [List.foldl_cons, ih (handleEvent mode s e), handleEvent_actions]

theorem flushDraft_acts (env : Env) (s : DispatchState) :
    ∃ a, (flushDraft env s).actions = s.actions ++ a ∧
      ∀ x ∈ a, x.isDraftAct = true := by
  unfold flushDraft
  cases hd : s.draft with
  | none => exact ⟨[], by simp, by simp⟩
  | some d =>
    cases hc : s.chunker with
    | none =>
      simp only []
      rw [hd]
      exact ⟨(d.flush env.editOk).2, rfl, d.flush_acts_draft env.editOk⟩
    | some ck =>
      by_cases hb : ck.hasBuffered = true
      · simp only [hb, if_pos, if_true]
        refine ⟨[Action.forceDrain] ++
          ((if s.draftText ++ joinTexts (ck.drain true).1 = [] then d
            else d.update (s.draftText ++ joinTexts (ck.drain true).1)).flush env.editOk).2,
          by rw [List.append_assoc], ?_⟩
        intro x hx
        rcases List.mem_append.mp hx with hx | hx
        · simp at hx; subst hx; simp [Action.isDraftAct]
        · exact DraftStream.flush_acts_draft _ _ x hx
      · simp only [Bool.not_eq_true] at hb
        simp only [hb, Bool.false_eq_true, if_false]
        rw [hd]
        exact ⟨(d.flush env.editOk).2, rfl, d.flush_acts_draft env.editOk⟩

theorem stopDraft_acts (s : DispatchState) :
    ∃ a, (stopDraft s).actions = s.actions ++ a ∧
      ∀ x ∈ a, x.isDraftAct = true := by
  unfold stopDraft
  cases hd : s.draft with
  | none => exact ⟨[], by simp, by simp⟩
  | some d => exact ⟨d.stop.2, rfl, d.stop_acts_draft⟩

theorem deliverStep_filters (env : Env) (s : DispatchState) (p : Payload) :
    (deliverStep env s p).actions.filter Action.isSend
        = s.actions.filter Action.isSend ++ [Action.sendFinal p] ∧
    (deliverStep env s p).actions.filter Action.isErr
        = s.actions.filter Action.isErr ++
          (if env.sendOk p then [] else [Action.errorSink p]) := by
  obtain ⟨a1, h1, hd1⟩ := flushDraft_acts env s
  obtain ⟨a2, h2, hd2⟩ := stopDraft_acts (flushDraft env s)
  have hsend : ∀ x ∈ a1 ++ a2, x.isSend = false := by
    intro x hx
    rcases List.mem_append.mp hx with hx | hx
    · exact (Action.draft_not_send_err x (hd1 x hx)).1
    · exact (Action.draft_not_send_err x (hd2 x hx)).1
  have herr : ∀ x ∈ a1 ++ a2, x.isErr = false := by
    intro x hx
    rcases List.mem_append.mp hx with hx | hx
    · exact (Action.draft_not_send_err x (hd1 x hx)).2
    · exact (Action.draft_not_send_err x (hd2 x hx)).2
  have hacts : (stopDraft (flushDraft env s)).actions = s.actions ++ (a1 ++ a2) := by
    rw [h2, h1, List.append_assoc]
  have hnilS1 : a1.filter Action.isSend = [] := by
    apply List.filter_eq_nil_iff.mpr
    intro x hx
    simp [(Action.draft_not_send_err x (hd1 x hx)).1]
  have hnilS2 : a2.filter Action.isSend = [] := by
    apply List.filter_eq_nil_iff.mpr
    intro x hx
    simp [(Action.draft_not_send_err x (hd2 x hx)).1]
  have hnilE1 : a1.filter Action.isErr = [] := by
    apply List.filter_eq_nil_iff.mpr
    intro x hx
    simp [(Action.draft_not_send_err x (hd1 x hx)).2]
  have hnilE2 : a2.filter Action.isErr = [] := by
    apply List.filter_eq_nil_iff.mpr
    intro x hx
    simp [(Action.draft_not_send_err x (hd2 x hx)).2]
  unfold deliverStep deliverCb
  by_cases hok : env.sendOk p = true
  · simp only [if_pos rfl, hok, if_true]
    constructor <;>
      simp [List.filter_append, hacts, hnilS1, hnilS2, hnilE1, hnilE2, hok,
        Action.isSend, Action.isErr]
  · simp only [Bool.not_eq_true] at hok
    simp only [if_pos rfl, hok, Bool.false_eq_true, if_false]
    constructor <;>
      simp [List.filter_append, hacts, hnilS1, hnilS2, hnilE1, hnilE2, hok,
        Action.isSend, Action.isErr]

theorem foldlDeliver_filters (env : Env) (ps : List Payload) :
    ∀ s : DispatchState,
      ((ps.foldl (deliverStep env) s).actions.filter Action.isSend
          = s.actions.filter Action.isSend ++ ps.map Action.sendFinal) ∧
      ((ps.foldl (deliverStep env) s).actions.filter Action.isErr
          = s.actions.filter Action.isErr ++
            (ps.filter (fun p => !env.sendOk p)).map Action.errorSink) := by
  induction ps with
  | nil => intro s; simp
  | cons p rest ih =>
    intro s
    obtain ⟨hs, he⟩ := deliverStep_filters env s p
    obtain ⟨ihs, ihe⟩ := ih (deliverStep env s p)
    constructor
    · rw [List.foldl_cons, ihs, hs, List.append_assoc]
      rfl
    · rw [List.foldl_cons, ihe, he]
      by_cases hok : env.sendOk p = true
      · simp [hok]
      · simp only [Bool.not_eq_true] at hok
        simp [hok]

theorem runTerminal_filters (env : Env) (term : Terminal) (s : DispatchState) :
    ((runTerminal env s term).1.actions.filter Action.isSend
        = s.actions.filter Action.isSend ++
          (match term with
           | Terminal.noneEv => []
           | Terminal.finalEv ps => ps.map Action.sendFinal)) ∧
    ((runTerminal env s term).1.actions.filter Action.isErr
        = s.actions.filter Action.isErr ++
          (match term with
           | Terminal.noneEv => []
           | Terminal.finalEv ps =>
             (ps.filter (fun p => !env.sendOk p)).map Action.errorSink)) ∧
    ((runTerminal env s term).2
        = (match term with
           | Terminal.noneEv => false
           | Terminal.finalEv _ => true)) := by
  cases term with
  | noneEv => simp [runTerminal]
  | finalEv ps =>
    obtain ⟨hs, he⟩ := foldlDeliver_filters env ps s
    exact ⟨hs, he, rfl⟩

theorem typingStart_actions (env : Env) (s : DispatchState) :
    (typingStart env s).actions
      = s.actions ++ (if env.typingOk then [Action.typingStarted] else [Action.typingWarn]) := by
  unfold typingStart
  by_cases h : env.typingOk = true
  · simp [h]
  · simp only [Bool.not_eq_true] at h
    simp [h]

/-- Characterization of the durable sends of one full dispatch: none for a
no-reply terminal; exactly one per payload, in order, for a final
terminal. -/
theorem dispatch_sends_errs (env : Env) (cfg : DispatchCfg) (evs : List TurnEvent)
    (term : Terminal) (hist : List Text) :
    ((dispatchTelegramMessage env cfg ⟨evs, term⟩ hist).state.actions.filter Action.isSend
        = (match term with
           | Terminal.noneEv => []
           | Terminal.finalEv ps => ps.map Action.sendFinal)) ∧
    ((dispatchTelegramMessage env cfg ⟨evs, term⟩ hist).state.actions.filter Action.isErr
        = (match term with
           | Terminal.noneEv => []
           | Terminal.finalEv ps =>
             (ps.filter (fun p => !env.sendOk p)).map Action.errorSink)) ∧
    ((dispatchTelegramMessage env cfg ⟨evs, term⟩ hist).queuedFinal
        = (match term with
           | Terminal.noneEv => false
           | Terminal.finalEv _ => true)) := by
  have hstart : (evs.foldl (handleEvent cfg.streamMode)
      (typingStart env (initialState cfg))).actions
        = (if env.typingOk then [Action.typingStarted] else [Action.typingWarn]) := by
    rw [foldlEvents_actions, typingStart_actions]
    simp [initialState]
  have hstartS : (evs.foldl (handleEvent cfg.streamMode)
      (typingStart env (initialState cfg))).actions.filter Action.isSend = [] := by
    rw [hstart]
    by_cases h : env.typingOk = true
    · simp [h, Action.isSend]
    · simp only [Bool.not_eq_true] at h
      simp [h, Action.isSend]
  have hstartE : (evs.foldl (handleEvent cfg.streamMode)
      (typingStart env (initialState cfg))).actions.filter Action.isErr = [] := by
    rw [hstart]
    by_cases h : env.typingOk = true
    · simp [h, Action.isErr]
    · simp only [Bool.not_eq_true] at h
      simp [h, Action.isErr]
  obtain ⟨hrs, hre, hrq⟩ := runTerminal_filters env term
    (evs.foldl (handleEvent cfg.streamMode) (typingStart env (initialState cfg)))
  obtain ⟨a3, h3, hd3⟩ := stopDraft_acts
    (runTerminal env (evs.foldl (handleEvent cfg.streamMode)
      (typingStart env (initialState cfg))) term).1
  have hnil3S : a3.filter Action.isSend = [] := by
    apply List.filter_eq_nil_iff.mpr
    intro x hx
    simp [(Action.draft_not_send_err x (hd3 x hx)).1]
  have hnil3E : a3.filter Action.isErr = [] := by
    apply List.filter_eq_nil_iff.mpr
    intro x hx
    simp [(Action.draft_not_send_err x (hd3 x hx)).2]
  have h3S : (stopDraft (runTerminal env (evs.foldl (handleEvent cfg.streamMode)
      (typingStart env (initialState cfg))) term).1).actions.filter Action.isSend
        = (match term with
           | Terminal.noneEv => []
           | Terminal.finalEv ps => ps.map Action.sendFinal) := by
    simp only [h3, List.filter_append, hrs, hstartS, hnil3S, List.nil_append,
      List.append_nil]
    cases term <;> rfl
  have h3E : (stopDraft (runTerminal env (evs.foldl (handleEvent cfg.streamMode)
      (typingStart env (initialState cfg))) term).1).actions.filter Action.isErr
        = (match term with
           | Terminal.noneEv => []
           | Terminal.finalEv ps =>
             (ps.filter (fun p => !env.sendOk p)).map Action.errorSink) := by
    simp only [h3, List.filter_append, hre, hstartE, hnil3E, List.nil_append,
      List.append_nil]
    cases term <;> rfl
  unfold dispatchTelegramMessage runDispatcher
  simp only []
  rw [hrq]
  cases term with
  | noneEv =>
    by_cases hg : (cfg.isGroup && cfg.hasHistoryKey) = true <;>
      simp [hg, List.filter_append, h3S, h3E, Action.isSend, Action.isErr]
  | finalEv ps =>
    by_cases hg : (cfg.isGroup && cfg.hasHistoryKey) = true <;>
      simp [hg, List.filter_append, h3S, h3E, Action.isSend, Action.isErr]

/-- C4: a turn whose stream ends with the terminal no-reply event performs
zero delivery-callback invocations and reports `queuedFinal = false`; a
terminal final event performs exactly one delivery invocation per final
payload. -/
theorem dispatch_none_no_delivery (env : Env) (cfg : DispatchCfg)
    (evs : List TurnEvent) (hist : List Text) :
    ((dispatchTelegramMessage env cfg ⟨evs, Terminal.noneEv⟩ hist).state.actions.filter
        Action.isSend = [] ∧
      (dispatchTelegramMessage env cfg ⟨evs, Terminal.noneEv⟩ hist).queuedFinal = false) ∧
    (∀ ps : List Payload,
      (dispatchTelegramMessage env cfg ⟨evs, Terminal.finalEv ps⟩ hist).state.actions.filter
        Action.isSend = ps.map Action.sendFinal) := by
  refine ⟨⟨?_, ?_⟩, ?_⟩
  · exact (dispatch_sends_errs env cfg evs Terminal.noneEv hist).1
  · exact (dispatch_sends_errs env cfg evs Terminal.noneEv hist).2.2
  · intro ps
    exact (dispatch_sends_errs env cfg evs (Terminal.finalEv ps) hist).1

/-- C7: a terminal final event invokes the delivery callback once per
payload, sequentially and in the order the event specifies; a failed
delivery is reported to the injected error sink with that payload's
identifying info and does not prevent the invocation for any sibling
payload (the send list is the full payload list for every failure
pattern). -/
theorem dispatch_final_per_payload_isolated (env : Env) (cfg : DispatchCfg)
    (evs : List TurnEvent) (ps : List Payload) (hist : List Text) :
    ((dispatchTelegramMessage env cfg ⟨evs, Terminal.finalEv ps⟩ hist).state.actions.filter
        Action.isSend = ps.map Action.sendFinal) ∧
    ((dispatchTelegramMessage env cfg ⟨evs, Terminal.finalEv ps⟩ hist).state.actions.filter
        Action.isErr = (ps.filter (fun p => !env.sendOk p)).map Action.errorSink) ∧
    ((dispatchTelegramMessage env cfg ⟨evs, Terminal.finalEv ps⟩ hist).queuedFinal = true) := by
  refine ⟨?_, ?_, ?_⟩
  · exact (dispatch_sends_errs env cfg evs (Terminal.finalEv ps) hist).1
  · exact (dispatch_sends_errs env cfg evs (Terminal.finalEv ps) hist).2.1
  · exact (dispatch_sends_errs env cfg evs (Terminal.finalEv ps) hist).2.2

/-! ### History pruning (Turn Coordinator tail) -/

/-- History entries after one dispatch, for any terminal outcome. -/
theorem dispatch_history (env : Env) (cfg : DispatchCfg) (stream : TurnStream)
    (hist : List Text) :
    (dispatchTelegramMessage env cfg stream hist).history
      = (if cfg.isGroup && cfg.hasHistoryKey
         then clearHistoryEntriesIfEnabled hist cfg.historyLimit else hist) := by
  unfold dispatchTelegramMessage
  by_cases hq : (runDispatcher env cfg.streamMode stream (initialState cfg)).2 = true
  · simp only [hq, if_true]
    by_cases hg : (cfg.isGroup && cfg.hasHistoryKey) = true <;> simp [hg]
  · simp only [Bool.not_eq_true] at hq
    simp only [hq, Bool.false_eq_true, if_false]
    by_cases hg : (cfg.isGroup && cfg.hasHistoryKey) = true <;> simp [hg]

/-- Environment in which every transport operation succeeds. -/
def envAllOk : Env :=
  { editOk := fun _ => true, sendOk := fun _ => true, typingOk := true }

/-- Group context with a history key and a configured history limit of 0,
draft streaming off. -/
def cfgC5 : DispatchCfg :=
  { streamMode := StreamMode.off, isPrivateChat := false,
    resolvedThreadId := none, botTopicsEnabled := false, textLimit := 4096,
    chunking := none, isGroup := true, hasHistoryKey := true,
    historyLimit := some 0 }

/-- A turn that ends with one successfully delivered final payload. -/
def streamC5 : TurnStream :=
  ⟨[], Terminal.finalEv [⟨0, String.toList "reply"⟩]⟩

/-- Buffered group history before the turn: one entry. -/
def histC5 : List Text := [String.toList "hello"]

/-- C5 counterexample: a turn with a successful final delivery
(`queuedFinal = true`) in a group context with a history key and an
exceeded history limit still clears the buffered history entries — the
coordinator calls the pruning helper on the success path too, so the
entries are not left unchanged. -/
theorem history_prune_on_final_counterexample :
    (dispatchTelegramMessage envAllOk cfgC5 streamC5 histC5).queuedFinal = true ∧
    (dispatchTelegramMessage envAllOk cfgC5 streamC5 histC5).history = [] ∧
    histC5 ≠ [] := by
  refine ⟨?_, ?_, ?_⟩ <;> decide

/-- C5 (amended): conversation-history pruning for group contexts runs at
the end of every turn regardless of the dispatch outcome — both when no
reply was produced and after a successful final delivery — whenever the
context is a group with a history key; the entries are cleared exactly
when the configured limit is present and exceeded, and are left unchanged
only for non-group contexts or without a history key. -/
theorem history_prune_both_branches (env : Env) (cfg : DispatchCfg)
    (stream : TurnStream) (hist : List Text) :
    (dispatchTelegramMessage env cfg stream hist).history
      = (if cfg.isGroup && cfg.hasHistoryKey
         then clearHistoryEntriesIfEnabled hist cfg.historyLimit else hist) :=
  dispatch_history env cfg stream hist

/-! ### When no draft stream exists, nothing touches the draft transport -/

theorem updateDraft_of_draftNone (mode : StreamMode) (s : DispatchState) (t : Text)
    (h : s.draft = none) : updateDraftFromPartial mode s t = s := by
  unfold updateDraftFromPartial
  rw [h]

theorem handleEvent_of_draftNone (mode : StreamMode) (s : DispatchState)
    (e : TurnEvent) (h : s.draft = none) : handleEvent mode s e = s := by
  cases e with
  | partialText t => exact updateDraft_of_draftNone mode s t h
  | reasoningText t =>
    simp only [handleEvent]
    rw [h]

theorem foldl_of_draftNone (mode : StreamMode) (evs : List TurnEvent) :
    ∀ s : DispatchState, s.draft = none →
      evs.foldl (handleEvent mode) s = s := by
  induction evs with
  | nil => intro s _; rfl
  | cons e rest ih =>
    intro s h
    rw [List.foldl_cons, handleEvent_of_draftNone mode s e h]
    exact ih s h

theorem flushDraft_of_draftNone (env : Env) (s : DispatchState)
    (h : s.draft = none) : flushDraft env s = s := by
  unfold flushDraft
  rw [h]

theorem stopDraft_of_draftNone (s : DispatchState) (h : s.draft = none) :
    stopDraft s = s := by
  unfold stopDraft
  rw [h]

theorem deliverStep_of_draftNone (env : Env) (p : Payload) (s : DispatchState)
    (h : s.draft = none) :
    (deliverStep env s p).draft = none ∧
    (deliverStep env s p).actions.filter Action.isDraftAct
      = s.actions.filter Action.isDraftAct := by
  unfold deliverStep deliverCb
  rw [if_pos rfl, stopDraft_of_draftNone _ (by rw [flushDraft_of_draftNone env s h]; exact h),
    flushDraft_of_draftNone env s h]
  by_cases hok : env.sendOk p = true
  · simp [hok, h, List.filter_append, Action.isDraftAct]
  · simp only [Bool.not_eq_true] at hok
    simp [hok, h, List.filter_append, Action.isDraftAct]

theorem foldlDeliver_of_draftNone (env : Env) (ps : List Payload) :
    ∀ s : DispatchState, s.draft = none →
      ((ps.foldl (deliverStep env) s).draft = none ∧
       (ps.foldl (deliverStep env) s).actions.filter Action.isDraftAct
         = s.actions.filter Action.isDraftAct) := by
  induction ps with
  | nil => intro s h; exact ⟨h, rfl⟩
  | cons p rest ih =>
    intro s h
    obtain ⟨h1, h2⟩ := deliverStep_of_draftNone env p s h
    obtain ⟨h3, h4⟩ := ih (deliverStep env s p) h1
    exact ⟨by rw [List.foldl_cons]; exact h3,
           by rw [List.foldl_cons, h4, h2]⟩

theorem typingStart_draft (env : Env) (s : DispatchState) :
    (typingStart env s).draft = s.draft := by
  unfold typingStart
  split <;> rfl

theorem typingStart_filter_draftAct (env : Env) (s : DispatchState) :
    (typingStart env s).actions.filter Action.isDraftAct
      = s.actions.filter Action.isDraftAct := by
  rw [typingStart_actions]
  split <;> simp [List.filter_append, Action.isDraftAct]

theorem dispatch_draftNone_filter (env : Env) (cfg : DispatchCfg)
    (evs : List TurnEvent) (term : Terminal) (hist : List Text)
    (h : mkDraftStream cfg = none) :
    (dispatchTelegramMessage env cfg ⟨evs, term⟩ hist).state.actions.filter
      Action.isDraftAct = [] := by
  have h0 : (initialState cfg).draft = none := h
  have h0a : (initialState cfg).actions = [] := rfl
  have h1 : (typingStart env (initialState cfg)).draft = none := by
    rw [typingStart_draft]; exact h0
  have h1f : (typingStart env (initialState cfg)).actions.filter Action.isDraftAct
      = [] := by
    rw [typingStart_filter_draftAct, h0a]
    rfl
  have h2 : evs.foldl (handleEvent cfg.streamMode) (typingStart env (initialState cfg))
      = typingStart env (initialState cfg) :=
    foldl_of_draftNone cfg.streamMode evs _ h1
  have h3 : ((runTerminal env (evs.foldl (handleEvent cfg.streamMode)
        (typingStart env (initialState cfg))) term).1.draft = none ∧
      (runTerminal env (evs.foldl (handleEvent cfg.streamMode)
        (typingStart env (initialState cfg))) term).1.actions.filter Action.isDraftAct
        = []) := by
    rw [h2]
    cases term with
    | noneEv => exact ⟨h1, h1f⟩
    | finalEv ps =>
      obtain ⟨ha, hb⟩ := foldlDeliver_of_draftNone env ps _ h1
      exact ⟨ha, by rw [runTerminal]; exact hb.trans h1f⟩
  obtain ⟨h3a, h3b⟩ := h3
  have h4 : stopDraft (runTerminal env (evs.foldl (handleEvent cfg.streamMode)
      (typingStart env (initialState cfg))) term).1
        = (runTerminal env (evs.foldl (handleEvent cfg.streamMode)
      (typingStart env (initialState cfg))) term).1 :=
    stopDraft_of_draftNone _ h3a
  unfold dispatchTelegramMessage runDispatcher
  simp only []
  rw [h4]
  by_cases hq : (runTerminal env (evs.foldl (handleEvent cfg.streamMode)
      (typingStart env (initialState cfg))) term).2 = true
  · simp only [hq, if_true]
    by_cases hg : (cfg.isGroup && cfg.hasHistoryKey) = true <;>
      simp [hg, List.filter_append, h3b, Action.isDraftAct]
  · simp only [Bool.not_eq_true] at hq
    simp only [hq, Bool.false_eq_true, if_false]
    by_cases hg : (cfg.isGroup && cfg.hasHistoryKey) = true <;>
      simp [hg, List.filter_append, h3b, Action.isDraftAct]

/-- C9: a draft stream is created for a turn exactly when stream mode is
not `"off"`, the chat is a private chat, the resolved thread id is a
number, and bot topics resolve as enabled; and when no draft stream
exists, processing any turn performs no draft transport calls at all (the
partial and reasoning handlers are not installed). -/
theorem draft_stream_gating (cfg : DispatchCfg) (env : Env) (stream : TurnStream)
    (hist : List Text) :
    ((mkDraftStream cfg).isSome = true ↔
      (cfg.streamMode ≠ StreamMode.off ∧ cfg.isPrivateChat = true ∧
        (∃ n, cfg.resolvedThreadId = some n) ∧ cfg.botTopicsEnabled = true)) ∧
    (mkDraftStream cfg = none →
      (dispatchTelegramMessage env cfg stream hist).state.actions.filter
        Action.isDraftAct = []) := by
  constructor
  · rw [mkDraftStream_isSome]
    unfold canStreamDraft
    simp only [Bool.and_eq_true, decide_eq_true_eq, and_assoc]
    constructor
    · rintro ⟨ha, hb, hc, hd⟩
      exact ⟨ha, hb, Option.isSome_iff_exists.mp hc, hd⟩
    · rintro ⟨ha, hb, hc, hd⟩
      exact ⟨ha, hb, Option.isSome_iff_exists.mpr hc, hd⟩
  · intro h
    obtain ⟨evs, term⟩ := stream
    exact dispatch_draftNone_filter env cfg evs term hist h

/-- Non-private chat: the draft stream is gated off even in block mode. -/
def cfgW9 : DispatchCfg :=
  { streamMode := StreamMode.block, isPrivateChat := false,
    resolvedThreadId := some 3, botTopicsEnabled := true, textLimit := 100,
    chunking := none, isGroup := true, hasHistoryKey := false,
    historyLimit := none }

/-- A turn with partial, reasoning and final events. -/
def streamW9 : TurnStream :=
  ⟨[TurnEvent.partialText (String.toList "Hel"),
    TurnEvent.reasoningText (String.toList "thinking"),
    TurnEvent.partialText (String.toList "Hello")],
   Terminal.finalEv [⟨0, String.toList "Hello"⟩]⟩

theorem draft_stream_gating_witness :
    (dispatchTelegramMessage envAllOk cfgW9 streamW9 []).state.actions.filter
      Action.isDraftAct = [] :=
  (draft_stream_gating cfgW9 envAllOk streamW9 []).2 (by rfl)

/-! ### The action ledger only ever grows, starting with the typing cue -/

theorem deliverStep_actions_append (env : Env) (s : DispatchState) (p : Payload) :
    ∃ a, (deliverStep env s p).actions = s.actions ++ a := by
  obtain ⟨a1, h1, _⟩ := flushDraft_acts env s
  obtain ⟨a2, h2, _⟩ := stopDraft_acts (flushDraft env s)
  have hacts : (stopDraft (flushDraft env s)).actions = s.actions ++ (a1 ++ a2) := by
    rw [h2, h1, List.append_assoc]
  unfold deliverStep deliverCb
  by_cases hok : env.sendOk p = true
  · exact ⟨(a1 ++ a2) ++ [Action.sendFinal p],
      by simp [hok, hacts, List.append_assoc]⟩
  · simp only [Bool.not_eq_true] at hok
    exact ⟨(a1 ++ a2) ++ [Action.sendFinal p] ++ [Action.errorSink p],
      by simp [hok, hacts, List.append_assoc]⟩

theorem foldlDeliver_actions_append (env : Env) (ps : List Payload) :
    ∀ s : DispatchState,
      ∃ a, (ps.foldl (deliverStep env) s).actions = s.actions ++ a := by
  induction ps with
  | nil => intro s; exact ⟨[], by simp⟩
  | cons p rest ih =>
    intro s
    obtain ⟨a1, h1⟩ := deliverStep_actions_append env s p
    obtain ⟨a2, h2⟩ := ih (deliverStep env s p)
    exact ⟨a1 ++ a2, by rw [List.foldl_cons, h2, h1, List.append_assoc]⟩

theorem dispatch_actions_prefix (env : Env) (cfg : DispatchCfg)
    (stream : TurnStream) (hist : List Text) :
    ∃ rest, (dispatchTelegramMessage env cfg stream hist).state.actions
      = (if env.typingOk then [Action.typingStarted] else [Action.typingWarn])
          ++ rest := by
  obtain ⟨evs, term⟩ := stream
  have hstart : (evs.foldl (handleEvent cfg.streamMode)
      (typingStart env (initialState cfg))).actions
        = (if env.typingOk then [Action.typingStarted] else [Action.typingWarn]) := by
    rw [foldlEvents_actions, typingStart_actions]
    rfl
  have hterm : ∃ a, (runTerminal env (evs.foldl (handleEvent cfg.streamMode)
      (typingStart env (initialState cfg))) term).1.actions
        = (evs.foldl (handleEvent cfg.streamMode)
            (typingStart env (initialState cfg))).actions ++ a := by
    cases term with
    | noneEv => exact ⟨[], by simp [runTerminal]⟩
    | finalEv ps => exact foldlDeliver_actions_append env ps _
  obtain ⟨aT, hT⟩ := hterm
  obtain ⟨aS, hS, _⟩ := stopDraft_acts (runTerminal env
    (evs.foldl (handleEvent cfg.streamMode) (typingStart env (initialState cfg))) term).1
  unfold dispatchTelegramMessage runDispatcher
  simp only []
  by_cases hq : (runTerminal env (evs.foldl (handleEvent cfg.streamMode)
      (typingStart env (initialState cfg))) term).2 = true
  · simp only [hq, if_true]
    by_cases hg : (cfg.isGroup && cfg.hasHistoryKey) = true
    · refine ⟨aT ++ (aS ++ ([Action.removeAck] ++ [Action.pruneHistory])), ?_⟩
      simp [hg, hS, hT, hstart, List.append_assoc]
    · simp only [Bool.not_eq_true] at hg
      refine ⟨aT ++ (aS ++ [Action.removeAck]), ?_⟩
      simp [hg, hS, hT, hstart, List.append_assoc]
  · simp only [Bool.not_eq_true] at hq
    simp only [hq, Bool.false_eq_true, if_false]
    by_cases hg : (cfg.isGroup && cfg.hasHistoryKey) = true
    · refine ⟨aT ++ (aS ++ [Action.pruneHistory]), ?_⟩
      simp [hg, hS, hT, hstart, List.append_assoc]
    · simp only [Bool.not_eq_true] at hg
      refine ⟨aT ++ aS, ?_⟩
      simp [hg, hS, hT, hstart, List.append_assoc]

/-- C8: cosmetic side-effect failures never propagate into the dispatch
flow.  With the same durable-send outcomes, any change to the live-edit
and typing-indicator outcomes leaves the delivered sends, the reported
outcome and the history untouched; a failed typing start is reported
through the warn sink (a `typingWarn` entry) and does not abort the turn;
and a failed live-edit attempt is reported through the injected warn sink
(the flush returns normally with a `warnLog` entry instead of raising). -/
theorem cosmetic_failures_isolated (cfg : DispatchCfg) (stream : TurnStream)
    (hist : List Text) (e1 e2 : Env) (hsend : e1.sendOk = e2.sendOk)
    (htyp : e1.typingOk = false) (d : DraftStream) (t : Text)
    (hstop : d.stopped = false) (hp : d.pending = some t)
    (hne : t ≠ d.lastSent) (hfail : e1.editOk t = false) :
    ((dispatchTelegramMessage e1 cfg stream hist).state.actions.filter Action.isSend
       = (dispatchTelegramMessage e2 cfg stream hist).state.actions.filter Action.isSend) ∧
    ((dispatchTelegramMessage e1 cfg stream hist).state.actions.filter Action.isErr
       = (dispatchTelegramMessage e2 cfg stream hist).state.actions.filter Action.isErr) ∧
    ((dispatchTelegramMessage e1 cfg stream hist).queuedFinal
       = (dispatchTelegramMessage e2 cfg stream hist).queuedFinal) ∧
    ((dispatchTelegramMessage e1 cfg stream hist).history
       = (dispatchTelegramMessage e2 cfg stream hist).history) ∧
    (Action.typingWarn ∈ (dispatchTelegramMessage e1 cfg stream hist).state.actions) ∧
    ((d.flush e1.editOk).2 = [Action.editDraft t, Action.warnLog t]) := by
  obtain ⟨evs, term⟩ := stream
  obtain ⟨hs1, he1, hq1⟩ := dispatch_sends_errs e1 cfg evs term hist
  obtain ⟨hs2, he2, hq2⟩ := dispatch_sends_errs e2 cfg evs term hist
  refine ⟨?_, ?_, ?_, ?_, ?_, ?_⟩
  · rw [hs1, hs2]
  · rw [he1, he2, hsend]
  · rw [hq1, hq2]
  · rw [dispatch_history e1 cfg ⟨evs, term⟩ hist, dispatch_history e2 cfg ⟨evs, term⟩ hist]
  · obtain ⟨rest, hr⟩ := dispatch_actions_prefix e1 cfg ⟨evs, term⟩ hist
    rw [hr, htyp]
    simp
  · unfold DraftStream.flush
    rw [hp]
    simp [hstop, hne, hfail]

/-- Environment in which the typing indicator and every live-edit attempt
fail but durable sends succeed. -/
def envCosmeticFail : Env :=
  { editOk := fun _ => false, sendOk := fun _ => true, typingOk := false }

/-- A draft stream with a pending unsent edit. -/
def draftW8 : DraftStream :=
  { maxChars := 4096, lastSent := [], pending := some (String.toList "x"),
    stopped := false }

theorem cosmetic_failures_isolated_witness :
    Action.typingWarn ∈
      (dispatchTelegramMessage envCosmeticFail cfgW10 streamW9 []).state.actions ∧
    (draftW8.flush envCosmeticFail.editOk).2
      = [Action.editDraft (String.toList "x"), Action.warnLog (String.toList "x")] :=
  ⟨(cosmetic_failures_isolated cfgW10 streamW9 [] envCosmeticFail envAllOk rfl rfl
      draftW8 (String.toList "x") rfl rfl (by decide) rfl).2.2.2.2.1,
   (cosmetic_failures_isolated cfgW10 streamW9 [] envCosmeticFail envAllOk rfl rfl
      draftW8 (String.toList "x") rfl rfl (by decide) rfl).2.2.2.2.2⟩

/-! ### Incremental mode: rendering invariant and non-monotonic reset -/

/-- Buffered chunker text of a dispatch state (empty when no chunker). -/
def bufferedText (s : DispatchState) : Text :=
  match s.chunker with
  | none => []
  | some ck => ck.buffer

theorem startsWithText_nil : ∀ t : Text, startsWithText t [] = true := by
  intro t
  cases t <;> rfl

theorem startsWithText_refl : ∀ t : Text, startsWithText t t = true := by
  intro t
  induction t with
  | nil => rfl
  | cons a as ih => simp [startsWithText, ih]

theorem startsWithText_append (a b : Text) : startsWithText (a ++ b) a = true := by
  induction a with
  | nil => simpa using startsWithText_nil b
  | cons x xs ih => simp [startsWithText, ih]

theorem Chunker.append_buffer (c : Chunker) (t : Text) :
    (c.append t).buffer = c.buffer ++ t := rfl

/-- The chunk-emission fold appends exactly the emitted chunks to the
accumulated draft text. -/
theorem emitFold_text : ∀ (chs : List Text) (dt : Text) (d : DraftStream),
    (chs.foldl (fun (acc : Text × DraftStream) ch =>
      (acc.1 ++ ch, acc.2.update (acc.1 ++ ch))) (dt, d)).1
      = dt ++ joinTexts chs := by
  intro chs
  induction chs with
  | nil => intro dt d; simp [joinTexts]
  | cons ch rest ih =>
    intro dt d
    rw [List.foldl_cons]
    simp only []
    rw [ih (dt ++ ch) (d.update (dt ++ ch))]
    simp [joinTexts, List.append_assoc]

/-- Invariant preservation: in block mode, after any partial-text event the
accumulated draft text plus the buffered chunker text equals the last seen
partial text. -/
theorem updateDraft_block_inv (s : DispatchState) (text : Text)
    (hinv : s.draftText ++ bufferedText s = s.lastPartialText) :
    (updateDraftFromPartial StreamMode.block s text).draftText
      ++ bufferedText (updateDraftFromPartial StreamMode.block s text)
      = (updateDraftFromPartial StreamMode.block s text).lastPartialText := by
  unfold updateDraftFromPartial
  cases hd : s.draft with
  | none => exact hinv
  | some d =>
    dsimp only
    by_cases h1 : text = []
    · rw [if_pos h1]
      exact hinv
    · by_cases h2 : text = s.lastPartialText
      · rw [if_neg h1, if_pos h2]
        exact hinv
      · have hmode : ¬(StreamMode.block = StreamMode.partialMode) := by simp
        rw [if_neg h1, if_neg h2, if_neg hmode]
        by_cases hext : startsWithText text s.lastPartialText = true
        · -- prefix-extension: delta is the new suffix
          have hdel : s.lastPartialText ++ text.drop s.lastPartialText.length = text :=
            startsWithText_drop s.lastPartialText text hext
          have hdelne : ¬(text.drop s.lastPartialText.length = []) := by
            intro h0
            rw [h0, List.append_nil] at hdel
            exact h2 hdel.symm
          simp only [hext, if_true, hdelne, if_false]
          cases hck : s.chunker with
          | none =>
            simp [bufferedText, hck]
          | some ck =>
            simp only [hck]
            rw [emitFold_text]
            simp only [bufferedText]
            have hcons := Chunker.drain_conservation
              (ck.append (text.drop s.lastPartialText.length)) false
            simp only [List.append_assoc]
            rw [hcons, Chunker.append_buffer]
            have hbuf : s.draftText ++ ck.buffer = s.lastPartialText := by
              have h := hinv
              simp only [bufferedText, hck] at h
              exact h
            rw [← List.append_assoc, hbuf, hdel]
        · -- non-extension: reset, then the delta is the whole new text
          simp only [Bool.not_eq_true] at hext
          simp only [hext, Bool.false_eq_true, if_false, h1]
          cases hck : s.chunker with
          | none =>
            simp [bufferedText, hck]
          | some ck =>
            simp only [hck, Option.map_some', Chunker.reset]
            rw [emitFold_text]
            simp only [bufferedText]
            have hcons := Chunker.drain_conservation
              ((Chunker.mk ck.cut []).append text) false
            simp only [List.nil_append]
            rw [hcons, Chunker.append_buffer]
            simp

/-- Reset semantics: a non-extending partial text is processed exactly as
if it arrived on a freshly reset stream (chunker reset, accumulated draft
text cleared, no previous partial text). -/
theorem updateDraft_block_reset (s : DispatchState) (text : Text)
    (d : DraftStream) (hd : s.draft = some d) (h0 : text ≠ [])
    (hext : startsWithText text s.lastPartialText = false) :
    updateDraftFromPartial StreamMode.block s text
      = updateDraftFromPartial StreamMode.block
          { s with chunker := s.chunker.map Chunker.reset, draftText := [],
                   lastPartialText := [] } text := by
  have hne : ¬(text = s.lastPartialText) := by
    intro he
    rw [he, startsWithText_refl] at hext
    exact Bool.noConfusion hext
  have hmode : ¬(StreamMode.block = StreamMode.partialMode) := by simp
  unfold updateDraftFromPartial
  rw [hd]
  simp only [h0, hne, hmode, if_false, hext, Bool.false_eq_true,
    List.length_nil, List.drop_zero, startsWithText_nil, if_true]

/-- C2: in incremental (block) delta mode, every partial-text event
preserves the rendering invariant "accumulated draft text plus buffered
chunk text equals the last seen partial text" (so the rendered draft text
is always a prefix of the current branch, never a splice of two
branches); and when the new text is not a prefix-extension of the
previously seen partial text, the dispatcher discards the buffered chunk
state (chunker reset, accumulated draft text cleared) and restarts
rendering exactly as from a fresh stream carrying the new text. -/
theorem updateDraft_reset_invariant (s : DispatchState) (text : Text)
    (hinv : s.draftText ++ bufferedText s = s.lastPartialText) :
    ((updateDraftFromPartial StreamMode.block s text).draftText
        ++ bufferedText (updateDraftFromPartial StreamMode.block s text)
      = (updateDraftFromPartial StreamMode.block s text).lastPartialText) ∧
    (startsWithText (updateDraftFromPartial StreamMode.block s text).lastPartialText
        (updateDraftFromPartial StreamMode.block s text).draftText = true) ∧
    (∀ d : DraftStream, s.draft = some d → text ≠ [] →
      startsWithText text s.lastPartialText = false →
      updateDraftFromPartial StreamMode.block s text
        = updateDraftFromPartial StreamMode.block
            { s with chunker := s.chunker.map Chunker.reset, draftText := [],
                     lastPartialText := [] } text) := by
  refine ⟨updateDraft_block_inv s text hinv, ?_, ?_⟩
  · rw [← updateDraft_block_inv s text hinv]
    exact startsWithText_append _ _
  · intro d hd h0 hext
    exact updateDraft_block_reset s text d hd h0 hext

/-- Boundary policy that declares every buffered text safe to emit. -/
def cutAll : BoundaryPolicy := fun t => t.length

/-- Chunker holding the unemitted tail of `"Hello wor"`. -/
def chunkerW2 : Chunker := ⟨cutAll, String.toList "wor"⟩

/-- A fresh draft stream for the C2 witness. -/
def draftW2 : DraftStream :=
  { maxChars := 4096, lastSent := [], pending := none, stopped := false }

/-- Mid-turn state: `"Hello "` already rendered, `"wor"` buffered, last
partial text `"Hello wor"`. -/
def sW2 : DispatchState :=
  { lastPartialText := String.toList "Hello wor",
    draftText := String.toList "Hello ", chunker := some chunkerW2,
    draft := some draftW2, actions := [] }

/-- The non-monotonic replacement text. -/
def tW2 : Text := String.toList "Hi again"

theorem updateDraft_reset_invariant_witness :
    ((updateDraftFromPartial StreamMode.block sW2 tW2).draftText
        ++ bufferedText (updateDraftFromPartial StreamMode.block sW2 tW2)
      = (updateDraftFromPartial StreamMode.block sW2 tW2).lastPartialText) ∧
    (updateDraftFromPartial StreamMode.block sW2 tW2
      = updateDraftFromPartial StreamMode.block
          { sW2 with chunker := sW2.chunker.map Chunker.reset, draftText := [],
                     lastPartialText := [] } tW2) :=
  ⟨(updateDraft_reset_invariant sW2 tW2 (by decide)).1,
   (updateDraft_reset_invariant sW2 tW2 (by decide)).2.2 draftW2 rfl
     (by decide) (by decide)⟩

/-! ### Ordering of the terminal success path -/

theorem flushDraft_decomp (env : Env) (s : DispatchState) (d : DraftStream)
    (hd : s.draft = some d) :
    ∃ (drainActs flushActs : List Action) (d1 : DraftStream),
      ((flushDraft env s).actions = s.actions ++ drainActs ++ flushActs) ∧
      (drainActs = [] ∨ drainActs = [Action.forceDrain]) ∧
      (flushActs = [] ∨ (∃ t, flushActs = [Action.editDraft t]) ∨
        (∃ t, flushActs = [Action.editDraft t, Action.warnLog t])) ∧
      ((flushDraft env s).draft = some d1) ∧ d1.pending = none ∧
      ((flushDraft env s).draftText = s.draftText ++ bufferedText s) := by
  unfold flushDraft
  cases hck : s.chunker with
  | none =>
    rw [hd]
    dsimp only
    rw [hd]
    refine ⟨[], (d.flush env.editOk).2, (d.flush env.editOk).1, ?_, Or.inl rfl,
      d.flush_acts_shape env.editOk, rfl, d.flush_pending_none env.editOk, ?_⟩
    · simp
    · simp [bufferedText, hck]
  | some ck =>
    by_cases hb : ck.hasBuffered = true
    · rw [hd]
      dsimp only
      simp only [hb, if_true]
      have hjoin : joinTexts (ck.drain true).1 = ck.buffer := by
        have hbuf : ¬(ck.buffer.isEmpty = true) := by
          rw [Chunker.hasBuffered] at hb
          simp only [Bool.not_eq_true]
          cases hke : ck.buffer.isEmpty
          · rfl
          · rw [hke] at hb
            exact Bool.noConfusion hb
        simp only [Chunker.drain, if_pos rfl]
        rw [if_neg hbuf]
        simp [joinTexts]
      refine ⟨[Action.forceDrain],
        ((if s.draftText ++ joinTexts (ck.drain true).1 = [] then d
          else d.update (s.draftText ++ joinTexts (ck.drain true).1)).flush env.editOk).2,
        ((if s.draftText ++ joinTexts (ck.drain true).1 = [] then d
          else d.update (s.draftText ++ joinTexts (ck.drain true).1)).flush env.editOk).1,
        ?_, Or.inr rfl, DraftStream.flush_acts_shape _ env.editOk, rfl,
        DraftStream.flush_pending_none _ env.editOk, ?_⟩
      · rw [List.append_assoc]
      · rw [hjoin]
        simp [bufferedText, hck]
    · simp only [Bool.not_eq_true] at hb
      rw [hd]
      dsimp only
      simp only [hb, Bool.false_eq_true, if_false]
      rw [hd]
      have hbufnil : ck.buffer = [] := by
        rw [Chunker.hasBuffered] at hb
        cases hke : ck.buffer with
        | nil => rfl
        | cons a t =>
          rw [hke] at hb
          exact Bool.noConfusion hb
      refine ⟨[], (d.flush env.editOk).2, (d.flush env.editOk).1, ?_, Or.inl rfl,
        d.flush_acts_shape env.editOk, rfl, d.flush_pending_none env.editOk, ?_⟩
      · simp
      · simp [bufferedText, hck, hbufnil]

theorem stopDraft_decomp (s : DispatchState) (d : DraftStream)
    (hd : s.draft = some d) :
    ∃ (stopActs : List Action) (d2 : DraftStream),
      ((stopDraft s).actions = s.actions ++ stopActs) ∧
      (stopActs = [] ∨ stopActs = [Action.finalizeDraft]) ∧
      ((stopDraft s).draft = some d2) ∧ d2.stopped = true ∧
      (d.pending = none → d2.pending = none) ∧
      ((stopDraft s).draftText = s.draftText) := by
  unfold stopDraft
  rw [hd]
  exact ⟨d.stop.2, d.stop.1, rfl, d.stop_acts_shape, rfl, d.stop_stopped,
    fun h => d.stop_pending h, rfl⟩

/-- C3: on the terminal success path with an active draft, the delivery
callback's single invocation performs, in order: the forced chunker drain
(when text is buffered), the final draft `update`/edit (when content
changed), the draft `flush`, the draft `stop`, and only then the durable
send — the send is the last action, strictly after the draft is fully
flushed (no pending edit) and stopped, and the force-drained remainder is
appended to the draft text before the send. -/
theorem deliver_final_ordering (env : Env) (s : DispatchState) (p : Payload)
    (d : DraftStream) (hd : s.draft = some d) :
    ∃ (drainActs flushActs stopActs : List Action) (d2 : DraftStream),
      ((deliverCb env s p InfoKind.finalKind).1.actions
        = s.actions ++ drainActs ++ flushActs ++ stopActs ++ [Action.sendFinal p]) ∧
      (drainActs = [] ∨ drainActs = [Action.forceDrain]) ∧
      (flushActs = [] ∨ (∃ t, flushActs = [Action.editDraft t]) ∨
        (∃ t, flushActs = [Action.editDraft t, Action.warnLog t])) ∧
      (stopActs = [] ∨ stopActs = [Action.finalizeDraft]) ∧
      ((deliverCb env s p InfoKind.finalKind).1.draft = some d2) ∧
      d2.stopped = true ∧ d2.pending = none ∧
      ((deliverCb env s p InfoKind.finalKind).1.draftText
        = s.draftText ++ bufferedText s) := by
  obtain ⟨da, fa, d1, hfa, hda, hfs, hfd, hfp, hft⟩ := flushDraft_decomp env s d hd
  obtain ⟨sa, d2, hsa, hss, hsd, hst, hsp, hstx⟩ :=
    stopDraft_decomp (flushDraft env s) d1 hfd
  have hcb : (deliverCb env s p InfoKind.finalKind).1
      = { stopDraft (flushDraft env s) with
          actions := (stopDraft (flushDraft env s)).actions ++ [Action.sendFinal p] } := by
    unfold deliverCb
    rw [if_pos rfl]
  refine ⟨da, fa, sa, d2, ?_, hda, hfs, hss, ?_, hst, hsp hfp, ?_⟩
  · rw [hcb]
    dsimp only
    rw [hsa, hfa]
  · rw [hcb]
    exact hsd
  · rw [hcb]
    dsimp only
    rw [hstx, hft]

/-- Chunker with an unemitted remainder for the C3 witness. -/
def chunkerW3 : Chunker := ⟨cutAll, String.toList "tail"⟩

/-- A live draft stream for the C3 witness. -/
def draftW3 : DraftStream :=
  { maxChars := 4096, lastSent := [], pending := none, stopped := false }

/-- Mid-turn state at the moment the terminal final event arrives. -/
def sW3 : DispatchState :=
  { lastPartialText := String.toList "body tail",
    draftText := String.toList "body ", chunker := some chunkerW3,
    draft := some draftW3, actions := [] }

/-- The final payload delivered in the C3 witness. -/
def pW3 : Payload := ⟨2, String.toList "body tail"⟩

theorem deliver_final_ordering_witness :
    ∃ (drainActs flushActs stopActs : List Action) (d2 : DraftStream),
      ((deliverCb envAllOk sW3 pW3 InfoKind.finalKind).1.actions
        = sW3.actions ++ drainActs ++ flushActs ++ stopActs ++ [Action.sendFinal pW3]) ∧
      (drainActs = [] ∨ drainActs = [Action.forceDrain]) ∧
      (flushActs = [] ∨ (∃ t, flushActs = [Action.editDraft t]) ∨
        (∃ t, flushActs = [Action.editDraft t, Action.warnLog t])) ∧
      (stopActs = [] ∨ stopActs = [Action.finalizeDraft]) ∧
      ((deliverCb envAllOk sW3 pW3 InfoKind.finalKind).1.draft = some d2) ∧
      d2.stopped = true ∧ d2.pending = none ∧
      ((deliverCb envAllOk sW3 pW3 InfoKind.finalKind).1.draftText
        = sW3.draftText ++ bufferedText sW3) :=
  deliver_final_ordering envAllOk sW3 pW3 draftW3 rfl

end OpenClaw
